import Mathlib

/-!
Shallow embedding of the two decision engines of the greendotv3 repository:

* the diet classification engine (`analyze.ts`): tokenizer, rule resolver,
  matcher, verdict calculator, confidence estimator, allergen extractor;
* the alternative ranking engine (`suggest.ts`): candidate filtering,
  scoring, sorting, brand diversification, truncation.

JavaScript strings are modelled by `String`, JavaScript numbers by `ℚ`
(exact arithmetic standing in for IEEE doubles; only order and equality of
the computed values are used by the theorems below), absent optional
values by `Option`, and JavaScript objects used as ordered string-keyed
records by association lists.  The rule table `rules.json` is not part of
the source tree; where its content matters it is modelled from the spec
(see `RULES` below).
-/

namespace Greendot

/-! ### JavaScript string primitives

Implemented over the character list of the string by structural recursion,
so that every definition evaluates inside the kernel (`decide`/`rfl`);
the core library's `String.trim`, `String.toLower`, `String.splitOn` are
computationally equivalent but are defined by well-founded recursion. -/

/-- JS `hay.includes(pat)`: substring containment (empty pattern matches). -/
def strContains (hay pat : String) : Bool :=
  (List.range (hay.data.length + 1)).any fun i => pat.data.isPrefixOf (hay.data.drop i)

/-- JS `s.toLowerCase()` (ASCII, as exercised by the rule terms). -/
def jsToLower (s : String) : String := ⟨s.data.map Char.toLower⟩

/-- JS `s.trim()`: strip leading and trailing whitespace. -/
def jsTrim (s : String) : String :=
  ⟨(((s.data.dropWhile Char.isWhitespace).reverse).dropWhile Char.isWhitespace).reverse⟩

def jsLength (s : String) : ℕ := s.data.length

/-- JS `s.split(sep)` for a one-character separator (never empty output). -/
def splitOnCharAux (sep : Char) : List Char → List (List Char) → List (List Char)
  | [], acc => acc
  | c :: rest, acc =>
    match acc with
    | [] => splitOnCharAux sep rest [[c]]
    | cur :: done =>
      if c = sep then splitOnCharAux sep rest ([] :: cur :: done)
      else splitOnCharAux sep rest ((c :: cur) :: done)

def jsSplitOnChar (sep : Char) (s : String) : List String :=
  ((splitOnCharAux sep s.data [[]]).map fun l => (⟨l.reverse⟩ : String)).reverse

/-- JS `s.startsWith(pre)`. -/
def jsStartsWith (s pre : String) : Bool := pre.data.isPrefixOf s.data

/-- JS `s.endsWith(suf)`. -/
def jsEndsWith (s suf : String) : Bool := suf.data.isSuffixOf s.data

/-- JS `s.slice(n)` / Lean `String.drop` (code points). -/
def jsDrop (n : ℕ) (s : String) : String := ⟨s.data.drop n⟩

/-- JS `tokens.join(" ")`. -/
def joinSpace (l : List String) : String :=
  ⟨((l.map String.data).intersperse " ".data).flatten⟩

/-- The characters removed by the tokenizer's regex `[()\[\],.!?]`. -/
def punctChars : List Char := ['(', ')', '[', ']', ',', '.', '!', '?']

/-- Replace each punctuation character with a space (JS `replace(/[()\[\],.!?]/g, " ")`). -/
def replacePunct (s : String) : String :=
  ⟨s.data.map fun c => if c ∈ punctChars then ' ' else c⟩

/-- Collapse runs of whitespace into a single space (JS `replace(/\s+/g, " ")`).
The boolean argument records whether the previous character was whitespace. -/
def collapseWsAux : Bool → List Char → List Char
  | _, [] => []
  | prevWs, c :: rest =>
    if c.isWhitespace then
      if prevWs then collapseWsAux true rest
      else ' ' :: collapseWsAux true rest
    else c :: collapseWsAux false rest

def collapseWs (s : String) : String := ⟨collapseWsAux false s.data⟩

/-! ### Stable sorting

`Array.prototype.sort` is stable (ES2019) and the engine only ever sorts by
comparators of the form `(a, b) => k(a) - k(b)` for a numeric key `k`, i.e.
by a total preorder.  A stable sort against a total preorder has a unique
result, so JS sorting is modelled by a stable insertion sort, chosen over
the library's merge sort because it is structurally recursive and therefore
evaluates inside the kernel.  `le a b` means "`a` may be placed before
`b`", i.e. `comparator(a, b) ≤ 0`. -/

/-- Insert `x` after every element `y` of an ascending list with `le y x`
(so an element arriving later is placed after earlier equal elements:
stability). -/
def insertSorted {α : Type} (le : α → α → Bool) (x : α) : List α → List α
  | [] => [x]
  | y :: ys => if le y x then y :: insertSorted le x ys else x :: y :: ys

/-- Stable sort by `le`, processing the original list left to right. -/
def stableSortBy {α : Type} (le : α → α → Bool) (l : List α) : List α :=
  l.foldl (fun acc x => insertSorted le x acc) []

/-! ### Classification engine: data model (`analyze.ts`, `types/index.ts`) -/

inductive DietMode
  | vegetarian | vegan | jain
deriving DecidableEq, Repr

/-- The string value of a `DietMode` (TS `DietMode` is a string union). -/
def DietMode.name : DietMode → String
  | .vegetarian => "vegetarian"
  | .vegan => "vegan"
  | .jain => "jain"

inductive Verdict
  | yes | no | unsure
deriving DecidableEq, Repr

inductive Severity
  | blocking | warning
deriving DecidableEq, Repr

def Severity.str : Severity → String
  | .blocking => "blocking"
  | .warning => "warning"

/-- `Reason.category` union from `types/index.ts`. -/
inductive ReasonCategory
  | meat | dairy | egg | honey | root | fungi | additive
deriving DecidableEq, Repr

structure Reason where
  ingredient : String
  category : ReasonCategory
  severity : Severity
  explanation : String
deriving DecidableEq, Repr

inductive FlagLevel
  | unsure | warning
deriving DecidableEq, Repr

/-- One rule layer of `rules.json` (`DietRule` in `analyze.ts`).  JS objects
used as ordered string-keyed records become association lists. -/
structure DietRule where
  extendsName : Option String
  blocklist : List (String × List String)
  patterns : List String
  flags : List (String × FlagLevel)
deriving DecidableEq, Repr

/-- The shape of `rules.json` (`RulesShape`): the named diet rules, looked up
by name during `extends`-chain resolution, and the allergen table. -/
structure RulesShape where
  table : List (String × DietRule)
  allergens : List (String × List String)
deriving DecidableEq, Repr

structure AnalysisResult where
  verdict : Verdict
  confidence : ℕ
  reasons : List Reason
  allergens : List String
deriving DecidableEq, Repr

/-! ### Association-list helpers for JS objects -/

/-- Property read `obj[k]`. -/
def alistGet {α : Type} (l : List (String × α)) (k : String) : Option α :=
  (l.find? fun e => e.1 = k).map (·.2)

/-- Property write `obj[k] = v`: overwriting keeps the key's original
position (as in JS objects); a new key is appended. -/
def alistSet {α : Type} : List (String × α) → String → α → List (String × α)
  | [], k, v => [(k, v)]
  | (k', v') :: t, k, v => if k' = k then (k, v) :: t else (k', v') :: alistSet t k v

/-! ### Tokenizer (`normalizeIngredients`) -/

def normalizeIngredients (raw : String) : List String :=
  if raw = "" then []
  else
    let lower := jsToLower raw
    let cleaned := jsTrim (collapseWs (replacePunct lower))
    if cleaned = "" then []
    else ((jsSplitOnChar ' ' cleaned).map jsTrim).filter (· ≠ "")

/-! ### Rule resolver (`mergeDietRule`) -/

/-- The `while (cursor)` loop of `mergeDietRule`, with explicit fuel.
`none` is returned only on fuel exhaustion; `chainGo_isSome` below shows
that fuel `table.length + 1` always suffices, so the loop terminates on
every rule table, cyclic ones included.  Returns the chain of layers in
root-to-leaf order (the source `unshift`s each node) together with the
final set of visited names (the source `seen` set, most recent first). -/
def chainGo (table : List (String × DietRule)) :
    ℕ → Option String → List String → Option (List DietRule × List String)
  | _, none, seen => some ([], seen)
  | 0, some _, _ => none
  | fuel + 1, some cursor, seen =>
    if cursor ∈ seen then some ([], seen)
    else
      match alistGet table cursor with
      | none => some ([], cursor :: seen)
      | some r =>
        (chainGo table fuel r.extendsName (cursor :: seen)).map fun p => (p.1 ++ [r], p.2)

/-- Merge one layer's `blocklist` categories into the accumulator
(append only previously-unseen terms per category). -/
def mergeBucket (bucket : List String) (items : List String) : List String :=
  items.foldl (fun b item => if item ∈ b then b else b ++ [item]) bucket

def mergeLayerBlocklist (acc : List (String × List String)) (layer : List (String × List String)) :
    List (String × List String) :=
  layer.foldl (fun acc e => alistSet acc e.1 (mergeBucket ((alistGet acc e.1).getD []) e.2)) acc

/-- Hoist a layer's top-level `patterns` into the `"patterns"` bucket. -/
def mergeLayerPatterns (acc : List (String × List String)) (ps : List String) :
    List (String × List String) :=
  if ps = [] then acc
  else alistSet acc "patterns" (mergeBucket ((alistGet acc "patterns").getD []) ps)

/-- `{ ...(mergedFlags ?? \x7b\x7d), ...layer.flags }`: later layers overwrite. -/
def mergeLayerFlags (acc : List (String × FlagLevel)) (fs : List (String × FlagLevel)) :
    List (String × FlagLevel) :=
  fs.foldl (fun acc e => alistSet acc e.1 e.2) acc

structure MergedRule where
  blocklist : List (String × List String)
  flags : List (String × FlagLevel)
deriving DecidableEq, Repr

def mergeChain (chain : List DietRule) : MergedRule :=
  chain.foldl
    (fun acc layer =>
      { blocklist := mergeLayerPatterns (mergeLayerBlocklist acc.blocklist layer.blocklist) layer.patterns
        flags := mergeLayerFlags acc.flags layer.flags })
    { blocklist := [], flags := [] }

/-- `mergeDietRule`, generalised over the rule table (the source reads the
module-level `RULES`) and over an arbitrary starting name. -/
def mergeDietRuleNamed (table : List (String × DietRule)) (mode : String) : MergedRule :=
  mergeChain (((chainGo table (table.length + 1) (some mode) []).map Prod.fst).getD [])

def mergeDietRule (rules : RulesShape) (mode : DietMode) : MergedRule :=
  mergeDietRuleNamed rules.table mode.name

/-! ### Matcher (`toReason`, `matchTokensAgainstBlocklists`) -/

/-- The fixed `categoryMap` of `toReason`. -/
def categoryMap : List (String × ReasonCategory) :=
  [("meat", .meat), ("animal_products", .additive), ("dairy", .dairy), ("egg", .egg),
   ("honey", .honey), ("roots", .root), ("fungi", .fungi), ("alcohol", .additive),
   ("patterns", .additive)]

def toReason (ingredient category : String) (severity : Severity) (explanation : Option String) :
    Reason :=
  { ingredient
    category := (alistGet categoryMap category).getD .additive
    severity
    explanation := explanation.getD
      (ingredient ++ " is not allowed for this diet (category: " ++ category ++ ").") }

/-- Matcher state: the reasons pushed so far, each paired with the
deduplication key under which it was recorded, and the `seen` key set. -/
structure MatchState where
  reasons : List (Reason × String)
  seen : List String
deriving DecidableEq, Repr

/-- `if (!seen.has(key)) { reasons.push(r); seen.add(key); }` -/
def emit (st : MatchState) (key : String) (r : Reason) : MatchState :=
  if key ∈ st.seen then st else { reasons := st.reasons ++ [(r, key)], seen := key :: st.seen }

/-- Exact-category matches for one token.  `exactCats` is the blocklist
without its `"patterns"` bucket, terms lowercased; both branches of the
source's Jain severity ternary yield `"blocking"`. -/
def exactAttempts (exactCats : List (String × List String)) (token : String) :
    List (String × Reason) :=
  exactCats.filterMap fun e =>
    if token ∈ e.2 then
      some (token ++ "|" ++ e.1 ++ "|blocking", toReason token e.1 .blocking none)
    else none

/-- Jain advisory flags for one token (`flags[token]`); inert for other diets.
An undefined source `flags` object behaves like an empty table here, since it
is only ever read through `flags[token]`. -/
def flagAttempts (isJain : Bool) (flags : List (String × FlagLevel)) (token : String) :
    List (String × Reason) :=
  if isJain then
    match alistGet flags token with
    | some .unsure =>
      [(token ++ "|patterns|warning|unsure",
        toReason token "patterns" .warning
          (some (token ++ " may be derived from restricted sources for Jain diet.")))]
    | some .warning =>
      [(token ++ "|patterns|warning|warning",
        toReason token "patterns" .warning (some (token ++ " is cautioned for Jain diet.")))]
    | none => []
  else []

/-- Token-level pattern containment: first matching pattern only (the source
`break`s after the first hit, whether or not its key was fresh). -/
def patternAttempt (patternList : List String) (token : String) : List (String × Reason) :=
  match patternList.find? (fun p => strContains token p) with
  | some p =>
    [(token ++ "|patterns|blocking|" ++ p,
      toReason token "patterns" .blocking (some ("Contains restricted pattern: " ++ p)))]
  | none => []

/-- Phrase-level pattern containment over the full normalized text, guarded by
JS truthiness of `fullText` (the empty string skips the scan). -/
def phraseAttempts (fullText : String) (patternList : List String) : List (String × Reason) :=
  if fullText = "" then []
  else
    patternList.filterMap fun p =>
      if strContains fullText p then
        some (p ++ "|patterns|blocking|phrase",
          toReason p "patterns" .blocking (some ("Contains restricted pattern: " ++ p)))
      else none

/-- All candidate `(key, reason)` emissions of one matcher call, in source
order.  Which emissions are attempted never depends on the `seen` set, so the
source's interleaved loops are equivalent to this list folded through `emit`. -/
def matchAttempts (tokens : List String) (blocklists : List (String × List String))
    (mode : DietMode) (flags : List (String × FlagLevel)) (fullText : String) :
    List (String × Reason) :=
  let exactCats := (blocklists.filter fun e => e.1 ≠ "patterns").map
    fun e => (e.1, e.2.map jsToLower)
  let patternList := ((alistGet blocklists "patterns").getD []).map jsToLower
  (tokens.map fun token =>
      exactAttempts exactCats token ++ flagAttempts (mode = .jain) flags token ++
        patternAttempt patternList token).flatten ++
    phraseAttempts fullText patternList

def matchTokensWithKeys (tokens : List String) (blocklists : List (String × List String))
    (mode : DietMode) (flags : List (String × FlagLevel)) (fullText : String) :
    List (Reason × String) :=
  ((matchAttempts tokens blocklists mode flags fullText).foldl
    (fun st a => emit st a.1 a.2) ⟨[], []⟩).reasons

def matchTokensAgainstBlocklists (tokens : List String) (blocklists : List (String × List String))
    (mode : DietMode) (flags : List (String × FlagLevel)) (fullText : String) : List Reason :=
  (matchTokensWithKeys tokens blocklists mode flags fullText).map Prod.fst

/-! ### Allergen extractor, verdict calculator, confidence estimator -/

def extractAllergens (allergensTable : List (String × List String)) (tokens : List String) :
    List String :=
  allergensTable.foldl
    (fun acc e =>
      let set := e.2.map jsToLower
      if tokens.any (fun t => t ∈ set) then
        if e.1 ∈ acc then acc else acc ++ [e.1]
      else acc)
    []

def computeVerdict (reasons : List Reason) : Verdict :=
  if reasons.any (fun r => r.severity == Severity.blocking) then .no
  else if reasons.any (fun r => r.severity == Severity.warning) then .unsure
  else .yes

def estimateConfidence (raw : String) (_reasons : List Reason) (_verdict : Verdict) : ℕ :=
  let len := jsLength (jsTrim raw)
  if 20 < len then 100
  else if 0 < len then 75
  else 50

/-! ### Classification engine (`analyzeIngredients`), generalised over the
rule table the source reads from the module-level `RULES`. -/

def analyzeReasonsWithKeys (rules : RulesShape) (ingredients : String) (dietMode : DietMode) :
    List (Reason × String) :=
  let tokens := normalizeIngredients ingredients
  let m := mergeDietRule rules dietMode
  matchTokensWithKeys tokens m.blocklist dietMode m.flags (joinSpace tokens)

def analyzeIngredients (rules : RulesShape) (ingredients : String) (dietMode : DietMode) :
    AnalysisResult :=
  let tokens := normalizeIngredients ingredients
  let reasons := (analyzeReasonsWithKeys rules ingredients dietMode).map Prod.fst
  let verdict := computeVerdict reasons
  { verdict
    confidence := estimateConfidence ingredients reasons verdict
    reasons
    allergens := extractAllergens rules.allergens tokens }

/-- Modelled from the spec: the rule table `rules.json` is imported by
`analyze.ts` but the file itself is not among the sources.  Its content is
reconstructed from the spec's data model (three named rules chained by
`extends`, per-category exact blocklists, free-text patterns, Jain advisory
flags) and its pinned examples: `gelatin` is a blocked animal-product
pattern for vegetarians, `whey`/`milk` are blocked dairy terms for vegans,
Jain additionally blocks roots and fungi and carries advisory flags, and
the allergen table maps allergen names to term lists. -/
def RULES : RulesShape :=
  { table :=
      [("vegetarian",
        { extendsName := none
          blocklist := [("meat", ["chicken", "pork", "beef", "fish"])]
          patterns := ["gelatin", "rennet", "lard"]
          flags := [] }),
       ("vegan",
        { extendsName := some "vegetarian"
          blocklist := [("dairy", ["milk", "whey", "butter"]), ("egg", ["egg"]),
                        ("honey", ["honey"])]
          patterns := []
          flags := [] }),
       ("jain",
        { extendsName := some "vegan"
          blocklist := [("roots", ["onion", "garlic", "potato"]), ("fungi", ["mushroom"])]
          patterns := []
          flags := [("enzymes", FlagLevel.unsure)] })]
    allergens := [("milk", ["milk", "whey", "butter"]), ("gluten", ["wheat", "barley"])] }

/-! ### Ranking engine: data model (`suggest.ts`) -/

inductive Grade
  | a | b | c | d | e
deriving DecidableEq, Repr

/-- Position in `gradeOrder = ["a","b","c","d","e"]`. -/
def gradeIdx : Grade → ℕ
  | .a => 0 | .b => 1 | .c => 2 | .d => 3 | .e => 4

/-- `gradeOrder.indexOf(g)` on a possibly-absent grade: JS `indexOf` returns
`-1` when the element is absent. -/
def gradeRank (g : Option Grade) : ℚ :=
  match g with
  | some x => gradeIdx x
  | none => -1

def betterGrade (x y : Option Grade) : Bool :=
  match x, y with
  | some gx, some gy => decide (gradeIdx gx < gradeIdx gy)
  | _, _ => false

inductive DesiredLabel
  | vegan | organic | halal | kosher
deriving DecidableEq, Repr

def DesiredLabel.str : DesiredLabel → String
  | .vegan => "vegan" | .organic => "organic" | .halal => "halal" | .kosher => "kosher"

/-- The two nutriment keys the engine reads (`sugars_100g`, `salt_100g`);
the source's `num` coercion is absorbed by storing numeric values directly. -/
structure Nutriments where
  sugars_100g : Option ℚ
  salt_100g : Option ℚ
deriving DecidableEq, Repr

structure Baseline where
  code : String
  name : Option String
  categories_tags : Option (List String)
  countries_tags : Option (List String)
  nutrition_grades : Option Grade
  nova_group : Option ℚ
  ecoscore_grade : Option Grade
  ecoscore_score : Option ℚ
  nutriments : Option Nutriments
  additives_n : Option ℚ
  additives_tags : Option (List String)
  ingredients_from_palm_oil_n : Option ℚ
deriving DecidableEq, Repr

structure Candidate where
  code : String
  product_name : Option String
  brands : Option String
  image_url : Option String
  categories_tags : Option (List String)
  countries_tags : Option (List String)
  labels_tags : Option (List String)
  ingredients_analysis_tags : Option (List String)
  allergens_tags : Option (List String)
  traces_tags : Option (List String)
  nutrition_grades : Option Grade
  nova_group : Option ℚ
  ecoscore_grade : Option Grade
  ecoscore_score : Option ℚ
  nutriments : Option Nutriments
  additives_n : Option ℚ
  additives_tags : Option (List String)
  ingredients_from_palm_oil_n : Option ℚ
  ingredients_text : Option String
deriving DecidableEq, Repr

inductive SortMode
  | balanced | nutri | nova | eco | sugar | salt
deriving DecidableEq, Repr

/-- `SuggestionPrefs`.  `palmOilFree?: boolean` and
`requiredLabels?: DesiredLabel[]` behave identically when absent and when
false/empty, so they are modelled plainly; `limit` is the non-negative
result limit (`slice(0, limit)`); `countryTag` only feeds the search URL,
which the injected search result replaces below, so it is omitted. -/
structure SuggestionPrefs where
  diet : DietMode
  avoidAllergens : List String
  palmOilFree : Bool
  requiredLabels : List DesiredLabel
  limit : Option ℕ
  sort : Option SortMode
deriving DecidableEq, Repr

structure Deltas where
  nutri : Option (Option Grade × Option Grade)
  nova : Option (Option ℚ × Option ℚ)
  eco : Option (Option Grade × Option Grade)
  sugars100g : Option (Option ℚ × Option ℚ)
  salt100g : Option (Option ℚ × Option ℚ)
  additives : Option (Option ℚ × Option ℚ)
deriving DecidableEq, Repr

structure Badges where
  palmOilFree : Bool
  labels : List DesiredLabel
deriving DecidableEq, Repr

/-- `Suggestion extends Candidate`: the TS object spread `{ ...c, ... }` is
modelled by keeping the whole candidate in the `cand` field. -/
structure Suggestion where
  cand : Candidate
  dietVerdict : Verdict
  badges : Badges
  deltas : Deltas
  score : ℚ
deriving DecidableEq, Repr

/-! ### Category slug selection and candidate guards -/

def GENERIC_CATEGORY_SLUGS : List String :=
  ["foods", "food", "meals", "prepared-meals", "ready-meals", "snacks", "beverages",
   "drinks", "groceries", "grocery-products", "dishes"]

def normalizeCategorySlugs (tags : Option (List String)) : List String :=
  (((tags.getD []).map fun t =>
      jsTrim (jsToLower
        (if strContains t ":" then ((jsSplitOnChar ':' t).getLast?).getD t else t)))).filter
    (· ≠ "")

/-- `hits.sort((a, b) => b.length - a.length)`: stable descending by length. -/
def sortByLenDesc (l : List String) : List String :=
  stableSortBy (fun a b => decide (jsLength b ≤ jsLength a)) l

def preferredCategoryKeys : List String :=
  ["instant-ramen", "instant-noodles", "ramen", "noodles"]

def pickCategorySlug (tags : Option (List String)) : Option String :=
  let slugs := (normalizeCategorySlugs tags).filter (· ∉ GENERIC_CATEGORY_SLUGS)
  if slugs = [] then none
  else
    match preferredCategoryKeys.findSome? (fun key =>
        let hits := slugs.filter fun s => strContains s key
        if hits ≠ [] then (sortByLenDesc hits).head? else none) with
    | some s => some s
    | none => (sortByLenDesc slugs).head?

def belongsToCategory (c : Candidate) (slug : String) : Bool :=
  (normalizeCategorySlugs c.categories_tags).any fun cat =>
    cat == slug || jsEndsWith cat ("-" ++ slug) || jsEndsWith slug ("-" ++ cat)

/-! ### Preference filter -/

def hasDesiredLabels (labels : Option (List String)) (required : List DesiredLabel) : Bool :=
  required.all fun L => (labels.getD []).any fun t => strContains (jsToLower t) L.str

def normalizeAllergenTags (tags : Option (List String)) : List String :=
  (tags.getD []).map fun t =>
    let s := jsToLower t
    if jsStartsWith s "en:" then jsDrop 3 s else s

def palmOilFree (n : Option ℚ) : Bool := n.getD 0 == 0

def passesFilters (rules : RulesShape) (c : Candidate) (prefs : SuggestionPrefs) :
    Bool × Verdict :=
  let ingredients := c.ingredients_text.getD ""
  let dietVerdict :=
    if ingredients ≠ "" then (analyzeIngredients rules ingredients prefs.diet).verdict
    else
      let tags := c.ingredients_analysis_tags.getD []
      let hasTag := fun s => tags.any fun t => strContains t s
      if prefs.diet = .vegan ∧ hasTag "vegan:yes" = true then .yes
      else if prefs.diet = .vegetarian ∧ hasTag "vegetarian:yes" = true then .yes
      else .unsure
  if dietVerdict ≠ .yes then (false, dietVerdict)
  else
    let avoid := prefs.avoidAllergens.map jsToLower
    if (normalizeAllergenTags c.allergens_tags).any (fun a => a ∈ avoid) then (false, dietVerdict)
    else if prefs.palmOilFree ∧ ¬palmOilFree c.ingredients_from_palm_oil_n = true then
      (false, dietVerdict)
    else if ¬hasDesiredLabels c.labels_tags prefs.requiredLabels = true then (false, dietVerdict)
    else (true, dietVerdict)

/-! ### Scoring, deltas, sort keys -/

def candSugars (c : Candidate) : Option ℚ := c.nutriments.bind (·.sugars_100g)

def candSalt (c : Candidate) : Option ℚ := c.nutriments.bind (·.salt_100g)

def baseSugars (b : Baseline) : Option ℚ := b.nutriments.bind (·.sugars_100g)

def baseSalt (b : Baseline) : Option ℚ := b.nutriments.bind (·.salt_100g)

/-- `c.additives_n ?? c.additives_tags?.length` -/
def candAdds (c : Candidate) : Option ℚ :=
  c.additives_n <|> (c.additives_tags.map fun l => (l.length : ℚ))

def baseAdds (b : Baseline) : Option ℚ :=
  b.additives_n <|> (b.additives_tags.map fun l => (l.length : ℚ))

def computeDeltas (c : Candidate) (base : Baseline) : Deltas :=
  { nutri :=
      if c.nutrition_grades.isSome || base.nutrition_grades.isSome then
        some (base.nutrition_grades, c.nutrition_grades)
      else none
    nova :=
      if c.nova_group.isSome || base.nova_group.isSome then some (base.nova_group, c.nova_group)
      else none
    eco :=
      if c.ecoscore_grade.isSome || base.ecoscore_grade.isSome then
        some (base.ecoscore_grade, c.ecoscore_grade)
      else none
    sugars100g :=
      if (candSugars c).isSome || (baseSugars base).isSome then
        some (baseSugars base, candSugars c)
      else none
    salt100g :=
      if (candSalt c).isSome || (baseSalt base).isSome then some (baseSalt base, candSalt c)
      else none
    additives :=
      if (candAdds c).isSome || (baseAdds base).isSome then some (baseAdds base, candAdds c)
      else none }

/-- The number of required labels actually matched by the candidate's tags. -/
def matchedLabelCount (c : Candidate) (prefs : SuggestionPrefs) : ℕ :=
  (prefs.requiredLabels.filter fun L =>
    (c.labels_tags.getD []).any fun t => strContains (jsToLower t) L.str).length

def scoreCandidate (c : Candidate) (base : Baseline) (prefs : SuggestionPrefs) : ℚ :=
  let s1 : ℚ :=
    if betterGrade c.nutrition_grades base.nutrition_grades then
      20 + 10 * (gradeRank base.nutrition_grades - gradeRank c.nutrition_grades)
    else 0
  let s2 : ℚ :=
    match c.nova_group, base.nova_group with
    | some cn, some bn => if cn < bn then 12 + 6 * (bn - cn) else 0
    | _, _ => 0
  let s3 : ℚ :=
    if betterGrade c.ecoscore_grade base.ecoscore_grade then
      15 + 7 * (gradeRank base.ecoscore_grade - gradeRank c.ecoscore_grade)
    else 0
  let s4 : ℚ :=
    if palmOilFree c.ingredients_from_palm_oil_n ∧
        ¬palmOilFree base.ingredients_from_palm_oil_n = true then 10
    else 0
  let s5 : ℚ := if prefs.requiredLabels ≠ [] then 8 * (matchedLabelCount c prefs : ℚ) else 0
  let s6 : ℚ :=
    match candSugars c, baseSugars base with
    | some sc, some sb => if sc < sb then min 10 ((sb - sc) / max 1 sb * 10) else 0
    | _, _ => 0
  let s7 : ℚ :=
    match candAdds c, baseAdds base with
    | some av, some ab => if ab < av then -(8 * (av - ab)) else 0
    | _, _ => 0
  s1 + s2 + s3 + s4 + s5 + s6 + s7

/-- `sortKey`: JS `Number.POSITIVE_INFINITY` is the top element of
`WithTop ℚ`. -/
def sortKey (c : Candidate) (base : Baseline) (prefs : SuggestionPrefs) (mode : SortMode) :
    WithTop ℚ :=
  match mode with
  | .nutri => (gradeRank c.nutrition_grades : ℚ)
  | .nova => (c.nova_group.getD 99 : ℚ)
  | .eco => (gradeRank c.ecoscore_grade : ℚ)
  | .sugar =>
    match candSugars c with
    | some q => (q : WithTop ℚ)
    | none => ⊤
  | .salt =>
    match candSalt c with
    | some q => (q : WithTop ℚ)
    | none => ⊤
  | .balanced => (-scoreCandidate c base prefs : ℚ)

/-! ### Brand diversification and the ranking pipeline -/

/-- The first comma-separated segment of the brand field, trimmed and
lowercased (`(item.brands || "").split(",")[0].trim().toLowerCase()`). -/
def brandKey (c : Candidate) : String :=
  jsToLower (jsTrim ((jsSplitOnChar ',' (c.brands.getD "")).headD ""))

/-- The walk of `diversifyByBrand`; `counts` models the JS `Map` (missing
keys read as 0 via `counts.get(brand) || 0`). -/
def diversifyGo (maxPerBrand : ℕ) (counts : String → ℕ) : List Candidate → List Candidate
  | [] => []
  | c :: rest =>
    let b := brandKey c
    let n := counts b
    if n < maxPerBrand then
      c :: diversifyGo maxPerBrand (fun k => if k = b then n + 1 else counts k) rest
    else diversifyGo maxPerBrand counts rest

def diversifyByBrand (l : List Candidate) : List Candidate :=
  diversifyGo 2 (fun _ => 0) l

structure ScoredEntry where
  c : Candidate
  dietVerdict : Verdict
  score : ℚ
deriving DecidableEq, Repr

def filteredEntries (rules : RulesShape) (cands : List Candidate) (prefs : SuggestionPrefs) :
    List (Candidate × Verdict) :=
  cands.filterMap fun c =>
    let res := passesFilters rules c prefs
    if res.1 then some (c, res.2) else none

def scoredEntries (rules : RulesShape) (baseline : Baseline) (prefs : SuggestionPrefs)
    (cands : List Candidate) : List ScoredEntry :=
  (filteredEntries rules cands prefs).map fun e =>
    { c := e.1, dietVerdict := e.2, score := scoreCandidate e.1 baseline prefs }

/-- The two comparators of the sort step: `(a, b) => b.score - a.score` for
balanced mode (stable descending by score), `(a, b) => sortKey(a) - sortKey(b)`
otherwise (stable ascending by key).  JS `Array.prototype.sort` is stable. -/
def sortScored (baseline : Baseline) (prefs : SuggestionPrefs) (mode : SortMode)
    (scored : List ScoredEntry) : List ScoredEntry :=
  if mode = .balanced then stableSortBy (fun x y => decide (y.score ≤ x.score)) scored
  else
    stableSortBy
      (fun x y => decide (sortKey x.c baseline prefs mode ≤ sortKey y.c baseline prefs mode))
      scored

def buildSuggestion (baseline : Baseline) (prefs : SuggestionPrefs) (c : Candidate) :
    Suggestion :=
  { cand := c
    dietVerdict := .yes
    badges :=
      { palmOilFree := palmOilFree c.ingredients_from_palm_oil_n
        labels := prefs.requiredLabels.filter fun L =>
          (c.labels_tags.getD []).any fun t => strContains (jsToLower t) L.str }
    deltas := computeDeltas c baseline
    score := scoreCandidate c baseline prefs }

/-- The body of `fetchSuggestions` after the baseline has been resolved.
The catalog search collaborator is injected as its result: `.error` models a
rejected fetch (the source's `catch` returns `[]`), `.ok hits` the mapped
candidate records. -/
def rankPipeline (rules : RulesShape) (baseline : Baseline) (prefs : SuggestionPrefs)
    (search : Except Unit (List Candidate)) : List Suggestion :=
  match pickCategorySlug baseline.categories_tags with
  | none => []
  | some slug =>
    match search with
    | .error _ => []
    | .ok hits =>
      let candidates := hits.filter fun c =>
        c.code ≠ "" ∧ c.code ≠ baseline.code ∧ belongsToCategory c slug = true
      let scored := scoredEntries rules baseline prefs candidates
      let sorted := sortScored baseline prefs (prefs.sort.getD .balanced) scored
      let diversified := diversifyByBrand (sorted.map (·.c))
      let limited := diversified.take (prefs.limit.getD 8)
      limited.map (buildSuggestion baseline prefs)

/-- `baseline = { ...fetched, ...baseline }`: every key present on the
supplied baseline wins; keys it lacks are taken from the fetched record
(the observed callers build baselines as `{ code: barcode }`, so absent
fields are absent keys). -/
def mergeBackfill (fetched b : Baseline) : Baseline :=
  { code := b.code
    name := b.name <|> fetched.name
    categories_tags := b.categories_tags <|> fetched.categories_tags
    countries_tags := b.countries_tags <|> fetched.countries_tags
    nutrition_grades := b.nutrition_grades <|> fetched.nutrition_grades
    nova_group := b.nova_group <|> fetched.nova_group
    ecoscore_grade := b.ecoscore_grade <|> fetched.ecoscore_grade
    ecoscore_score := b.ecoscore_score <|> fetched.ecoscore_score
    nutriments := b.nutriments <|> fetched.nutriments
    additives_n := b.additives_n <|> fetched.additives_n
    additives_tags := b.additives_tags <|> fetched.additives_tags
    ingredients_from_palm_oil_n :=
      b.ingredients_from_palm_oil_n <|> fetched.ingredients_from_palm_oil_n }

/-- The baseline-resolution prologue of `fetchSuggestions`: when the supplied
baseline lacks category tags, the product-lookup collaborator is consulted;
`backfill` is its result (`none` models both a rejected fetch and a `null`
record, which the source treats alike). -/
def resolveBaseline (input : Baseline) (backfill : Option Baseline) : Baseline :=
  if input.categories_tags.getD [] = [] then
    match backfill with
    | some fetched => mergeBackfill fetched input
    | none => input
  else input

/-- `fetchSuggestions` with its two collaborator results injected. -/
def runSuggestions (rules : RulesShape) (input : Baseline) (prefs : SuggestionPrefs)
    (backfill : Option Baseline) (search : Except Unit (List Candidate)) : List Suggestion :=
  rankPipeline rules (resolveBaseline input backfill) prefs search

/-! ### Concrete fixtures used by counterexamples and witnesses -/

def emptyBaseline : Baseline :=
  ⟨"", none, none, none, none, none, none, none, none, none, none, none⟩

def emptyCandidate : Candidate :=
  ⟨"", none, none, none, none, none, none, none, none, none, none, none, none, none, none,
   none, none, none, none⟩

/-- A vegan-tagged noodle candidate with nutrition grade `a`. -/
def candGradeA : Candidate :=
  { emptyCandidate with
      code := "ca"
      categories_tags := some ["en:noodles"]
      ingredients_analysis_tags := some ["en:vegan:yes"]
      nutrition_grades := some .a }

/-- A vegan-tagged noodle candidate with no nutrition grade. -/
def candNoGrade : Candidate :=
  { emptyCandidate with
      code := "cm"
      categories_tags := some ["en:noodles"]
      ingredients_analysis_tags := some ["en:vegan:yes"] }

/-- A baseline that already carries a usable category tag. -/
def baselineNoodles : Baseline :=
  { emptyBaseline with code := "base", categories_tags := some ["en:noodles"] }

/-- A bare baseline as the observed callers construct it: only the code. -/
def baselineBare : Baseline := { emptyBaseline with code := "base" }

/-- A fetched product record for `baselineBare`: category tags plus a poor
nutrition grade. -/
def fetchedRecord : Baseline :=
  { emptyBaseline with
      code := "base"
      categories_tags := some ["en:noodles"]
      nutrition_grades := some .e }

def prefsVegan : SuggestionPrefs :=
  { diet := .vegan, avoidAllergens := [], palmOilFree := false, requiredLabels := [],
    limit := none, sort := none }

def prefsNutri : SuggestionPrefs := { prefsVegan with sort := some .nutri }

/-! ## Theorems -/

/-- The verdict reduction, characterised on an arbitrary reason list. -/
lemma computeVerdict_spec (reasons : List Reason) :
    (computeVerdict reasons = .no ↔ ∃ r ∈ reasons, r.severity = .blocking) ∧
    (computeVerdict reasons = .unsure ↔
      (¬(∃ r ∈ reasons, r.severity = .blocking) ∧ ∃ r ∈ reasons, r.severity = .warning)) ∧
    (computeVerdict reasons = .yes ↔
      (¬(∃ r ∈ reasons, r.severity = .blocking) ∧ ¬∃ r ∈ reasons, r.severity = .warning)) := by
  unfold computeVerdict
  by_cases h1 : reasons.any (fun r => r.severity == Severity.blocking) = true
  · simp only [List.any_eq_true, beq_iff_eq] at h1
    simp [List.any_eq_true, h1]
  · by_cases h2 : reasons.any (fun r => r.severity == Severity.warning) = true <;>
      simp only [List.any_eq_true, beq_iff_eq] at h1 h2 <;>
      simp [List.any_eq_true, h1, h2]

/-- C1: for every classification call, the verdict is `no` iff some reason is
`blocking`, `unsure` iff no reason is `blocking` and some reason is `warning`,
and `yes` otherwise (in particular on an empty reason list). -/
theorem C1_verdict_iff_reasons (rules : RulesShape) (raw : String) (mode : DietMode) :
    ((analyzeIngredients rules raw mode).verdict = .no ↔
      ∃ r ∈ (analyzeIngredients rules raw mode).reasons, r.severity = .blocking) ∧
    ((analyzeIngredients rules raw mode).verdict = .unsure ↔
      (¬(∃ r ∈ (analyzeIngredients rules raw mode).reasons, r.severity = .blocking) ∧
        ∃ r ∈ (analyzeIngredients rules raw mode).reasons, r.severity = .warning)) ∧
    ((analyzeIngredients rules raw mode).verdict = .yes ↔
      (¬(∃ r ∈ (analyzeIngredients rules raw mode).reasons, r.severity = .blocking) ∧
        ¬∃ r ∈ (analyzeIngredients rules raw mode).reasons, r.severity = .warning)) :=
  computeVerdict_spec ((analyzeReasonsWithKeys rules raw mode).map Prod.fst)

/-- Scanning the allergen table with no tokens yields no allergens. -/
lemma extractAllergens_nil (t : List (String × List String)) : extractAllergens t [] = [] := by
  unfold extractAllergens
  induction t with
  | nil => rfl
  | cons e rest ih =>
    simp [List.foldl_cons, List.any_nil, ih]

/-! #### Stable sort lemmas -/

lemma mem_insertSorted {α : Type} (le : α → α → Bool) (x : α) (l : List α) (z : α) :
    z ∈ insertSorted le x l ↔ z = x ∨ z ∈ l := by
  induction l with
  | nil => simp [insertSorted]
  | cons y ys ih =>
    unfold insertSorted
    by_cases h : le y x
    · simp [h, ih]
      tauto
    · simp [h]

lemma pairwise_insertSorted {α : Type} (le : α → α → Bool)
    (trans : ∀ a b c, le a b = true → le b c = true → le a c = true)
    (total : ∀ a b, le a b = true ∨ le b a = true) (x : α) (l : List α)
    (hl : l.Pairwise fun a b => le a b = true) :
    (insertSorted le x l).Pairwise fun a b => le a b = true := by
  induction l with
  | nil => simp [insertSorted]
  | cons y ys ih =>
    rw [List.pairwise_cons] at hl
    obtain ⟨hy, hys⟩ := hl
    unfold insertSorted
    by_cases h : le y x
    · rw [if_pos h, List.pairwise_cons]
      refine ⟨fun z hz => ?_, ih hys⟩
      rcases (mem_insertSorted le x ys z).1 hz with rfl | hz'
      · exact h
      · exact hy z hz'
    · rw [if_neg h, List.pairwise_cons]
      have hxy : le x y = true := (total y x).resolve_left h
      refine ⟨fun z hz => ?_, List.pairwise_cons.2 ⟨hy, hys⟩⟩
      rcases List.mem_cons.1 hz with rfl | hz'
      · exact hxy
      · exact trans x y z hxy (hy z hz')

lemma pairwise_stableSortBy {α : Type} (le : α → α → Bool)
    (trans : ∀ a b c, le a b = true → le b c = true → le a c = true)
    (total : ∀ a b, le a b = true ∨ le b a = true) (l : List α) :
    (stableSortBy le l).Pairwise fun a b => le a b = true := by
  suffices h : ∀ acc : List α, (acc.Pairwise fun a b => le a b = true) →
      ((l.foldl (fun acc x => insertSorted le x acc) acc).Pairwise fun a b => le a b = true) by
    exact h [] (by simp)
  induction l with
  | nil => intro acc hacc; exact hacc
  | cons x xs ih =>
    intro acc hacc
    exact ih _ (pairwise_insertSorted le trans total x acc hacc)

lemma insertSorted_perm {α : Type} (le : α → α → Bool) (x : α) (l : List α) :
    List.Perm (insertSorted le x l) (x :: l) := by
  induction l with
  | nil => exact List.Perm.refl _
  | cons y ys ih =>
    unfold insertSorted
    by_cases h : le y x
    · rw [if_pos h]
      exact (ih.cons y).trans (List.Perm.swap x y ys)
    · rw [if_neg h]

lemma stableSortBy_perm {α : Type} (le : α → α → Bool) (l : List α) :
    List.Perm (stableSortBy le l) l := by
  suffices h : ∀ acc : List α,
      List.Perm (l.foldl (fun acc x => insertSorted le x acc) acc) (acc ++ l) by
    simpa using h []
  induction l with
  | nil => intro acc; simp
  | cons x xs ih =>
    intro acc
    refine ((ih (insertSorted le x acc)).trans ?_)
    exact (((insertSorted_perm le x acc).append_right xs).trans List.perm_middle.symm)

/-- C2: for every diet mode (and any rule table), classifying the empty
string returns exactly verdict `yes`, confidence 50, no reasons and no
allergens. -/
theorem C2_classify_empty_input (rules : RulesShape) (mode : DietMode) :
    analyzeIngredients rules "" mode =
      { verdict := .yes, confidence := 50, reasons := [], allergens := [] } := by
  have h : analyzeIngredients rules "" mode =
      { verdict := .yes, confidence := 50, reasons := [],
        allergens := extractAllergens rules.allergens [] } := rfl
  rw [h, extractAllergens_nil]

/-! #### C3: reason deduplication -/

/-- C3 counterexample: a single-token text equal to a blocked free-text
pattern is reported twice — once by the token-level pattern scan and once by
the phrase-level scan — and the two reasons carry the identical
`(ingredient, category, severity)` triple, so the claimed triple-level
deduplication fails. -/
theorem C3_counterexample :
    ((analyzeIngredients RULES "gelatin" DietMode.vegetarian).reasons.map
        fun r => (r.ingredient, r.category, r.severity)) =
      [("gelatin", ReasonCategory.additive, Severity.blocking),
       ("gelatin", ReasonCategory.additive, Severity.blocking)] := by
  decide

/-- Folding emissions through `emit` keeps the recorded keys duplicate-free,
provided the accumulated keys are duplicate-free and all already recorded in
`seen`. -/
lemma emit_foldl_keys_nodup (attempts : List (String × Reason)) :
    ∀ st : MatchState, (st.reasons.map Prod.snd).Nodup →
      (∀ k ∈ st.reasons.map Prod.snd, k ∈ st.seen) →
      (((attempts.foldl (fun s a => emit s a.1 a.2) st).reasons.map Prod.snd)).Nodup := by
  induction attempts with
  | nil => intro st h1 _; exact h1
  | cons a rest ih =>
    intro st h1 h2
    rw [List.foldl_cons]
    by_cases hk : a.1 ∈ st.seen
    · have he : emit st a.1 a.2 = st := by unfold emit; rw [if_pos hk]
      rw [he]
      exact ih st h1 h2
    · have he : emit st a.1 a.2 =
          { reasons := st.reasons ++ [(a.2, a.1)], seen := a.1 :: st.seen } := by
        unfold emit; rw [if_neg hk]
      rw [he]
      apply ih
      · simp only [List.map_append, List.map_cons, List.map_nil]
        refine (List.nodup_append).2 ⟨h1, List.nodup_singleton _, ?_⟩
        intro k hkmem
        simp only [List.mem_singleton]
        intro hEq
        exact hk (hEq ▸ h2 k hkmem)
      · intro k hkmem
        simp only [List.map_append, List.map_cons, List.map_nil, List.mem_append,
          List.mem_singleton] at hkmem
        rcases hkmem with hkmem | rfl
        · exact List.mem_cons_of_mem _ (h2 k hkmem)
        · exact List.mem_cons_self _ _

/-- C3 amended: deduplication is by the matcher's internal key — matched
text, raw rule category, severity, and a discriminator separating exact,
flag, token-level-pattern and phrase-level matches — not by the bare
`(ingredient, category, severity)` triple: no two reasons of one
classification call share that key. -/
theorem C3_amended_keys_nodup (rules : RulesShape) (raw : String) (mode : DietMode) :
    ((analyzeReasonsWithKeys rules raw mode).map Prod.snd).Nodup := by
  unfold analyzeReasonsWithKeys matchTokensWithKeys
  exact emit_foldl_keys_nodup _ ⟨[], []⟩ (by simp) (by simp)

/-! #### C4: rule resolution terminates on every table -/

/-- Inserting a table key into `seen` strictly shrinks the count of table
keys outside `seen`. -/
lemma countP_notMem_cons_lt (l : List String) (a : String) (seen : List String)
    (ha : a ∈ l) (hna : a ∉ seen) :
    (l.countP fun k => decide (k ∉ a :: seen)) < l.countP fun k => decide (k ∉ seen) := by
  induction l with
  | nil => cases ha
  | cons x xs ih =>
    rw [List.countP_cons, List.countP_cons]
    by_cases hx : x = a
    · subst hx
      have h1 : decide (x ∉ x :: seen) = false := by simp
      have h2 : decide (x ∉ seen) = true := by simpa using hna
      have hle : (xs.countP fun k => decide (k ∉ x :: seen)) ≤
          xs.countP fun k => decide (k ∉ seen) := by
        apply List.countP_mono_left
        intro k _ hk
        simp only [decide_eq_true_eq, List.mem_cons, not_or] at hk ⊢
        exact hk.2
      rw [h1, h2]
      simp only [Bool.false_eq_true, if_false, if_true]
      omega
    · have ha' : a ∈ xs := by
        rcases List.mem_cons.1 ha with h | h
        · exact absurd h.symm hx
        · exact h
      have hhead : (decide (x ∉ a :: seen)) = decide (x ∉ seen) := by
        by_cases hxs : x ∈ seen <;> simp [hxs, hx]
      rw [hhead]
      have := ih ha'
      omega

/-- With fuel exceeding the number of table keys not yet visited, the
resolution loop always completes (it never exhausts its fuel), on cyclic
tables included. -/
lemma chainGo_isSome (table : List (String × DietRule)) :
    ∀ (fuel : ℕ) (cursor : Option String) (seen : List String),
      ((table.map Prod.fst).countP fun k => decide (k ∉ seen)) < fuel →
      (chainGo table fuel cursor seen).isSome = true := by
  intro fuel
  induction fuel with
  | zero => intro cursor seen h; omega
  | succ n ih =>
    intro cursor seen h
    match cursor with
    | none => simp [chainGo]
    | some c =>
      by_cases hc : c ∈ seen
      · simp [chainGo, hc]
      · cases hlk : alistGet table c with
        | none => simp [chainGo, hc, hlk]
        | some r =>
          simp only [chainGo, if_neg hc, hlk, Option.isSome_map']
          apply ih
          have hmem : c ∈ table.map Prod.fst := by
            unfold alistGet at hlk
            rcases Option.map_eq_some'.1 hlk with ⟨e, he, _⟩
            have := List.find?_some he
            have hme := List.mem_of_find?_eq_some he
            simp only [decide_eq_true_eq] at this
            exact this ▸ List.mem_map_of_mem Prod.fst hme
          have := countP_notMem_cons_lt (table.map Prod.fst) c seen hmem hc
          omega

/-- Visited names stay duplicate-free: a name is never visited twice. -/
lemma chainGo_seen_nodup (table : List (String × DietRule)) :
    ∀ (fuel : ℕ) (cursor : Option String) (seen : List String)
      (res : List DietRule × List String), seen.Nodup →
      chainGo table fuel cursor seen = some res → res.2.Nodup := by
  intro fuel
  induction fuel with
  | zero =>
    intro cursor seen res hnd h
    match cursor with
    | none => rw [chainGo] at h; cases h; exact hnd
    | some c => rw [chainGo] at h; cases h
  | succ n ih =>
    intro cursor seen res hnd h
    match cursor with
    | none => rw [chainGo] at h; cases h; exact hnd
    | some c =>
      rw [chainGo] at h
      by_cases hc : c ∈ seen
      · rw [if_pos hc] at h; cases h; exact hnd
      · rw [if_neg hc] at h
        cases hlk : alistGet table c with
        | none =>
          rw [hlk] at h; cases h
          exact List.Nodup.cons hc hnd
        | some r =>
          rw [hlk] at h
          rcases Option.map_eq_some'.1 h with ⟨p, hp, hres⟩
          have := ih r.extendsName (c :: seen) p (List.Nodup.cons hc hnd) hp
          rw [← hres]
          exact this

def ruleA : DietRule := ⟨some "B", [], [], []⟩

def ruleB : DietRule := ⟨some "A", [], [], []⟩

/-- `A extends B`, `B extends A`. -/
def cyclicTable : List (String × DietRule) := [("A", ruleA), ("B", ruleB)]

/-- C4: on every rule table — cyclic `extends` chains included — the
resolution loop of `mergeDietRule` completes within its key-count fuel
bound without an error, visits each rule name at most once, and on the
`A extends B, B extends A` table resolving `A` stops at the revisit of `A`
having accumulated the layers in root-to-leaf order (`B` then `A`). -/
theorem C4_rule_resolution_cycle_safe :
    (∀ (table : List (String × DietRule)) (mode : String),
      ∃ layers visited, chainGo table (table.length + 1) (some mode) [] = some (layers, visited) ∧
        visited.Nodup) ∧
    chainGo cyclicTable (cyclicTable.length + 1) (some "A") [] =
      some ([ruleB, ruleA], ["B", "A"]) := by
  constructor
  · intro table mode
    have hfuel : ((table.map Prod.fst).countP fun k => decide (k ∉ ([] : List String))) <
        table.length + 1 := by
      have := List.countP_le_length (l := table.map Prod.fst)
        (p := fun k => decide (k ∉ ([] : List String)))
      simp only [List.length_map] at this
      omega
    have h1 := chainGo_isSome table (table.length + 1) (some mode) [] hfuel
    rcases Option.isSome_iff_exists.1 h1 with ⟨res, hres⟩
    exact ⟨res.1, res.2, by rw [hres],
      chainGo_seen_nodup table (table.length + 1) (some mode) [] res List.nodup_nil hres⟩
  · decide

/-! #### C5: confidence estimation -/

/-- C5 counterexample: a one-character whitespace text has length 1 (which
the claim places in the 75 band) but the code trims before measuring and
returns 50. -/
theorem C5_counterexample :
    jsLength " " = 1 ∧
    (analyzeIngredients RULES " " DietMode.vegan).confidence ≠ 75 ∧
    (analyzeIngredients RULES " " DietMode.vegan).confidence = 50 := by
  decide

/-- C5 amended: the confidence bands are measured on the
whitespace-trimmed text — 100 above 20 trimmed characters, 75 for 1–20
trimmed characters, 50 when nothing remains after trimming — and the
estimator's output never depends on its reasons or verdict arguments. -/
theorem C5_amended_confidence_trimmed (rules : RulesShape) (raw : String) (mode : DietMode) :
    ((analyzeIngredients rules raw mode).confidence =
      if 20 < jsLength (jsTrim raw) then 100
      else if 0 < jsLength (jsTrim raw) then 75 else 50) ∧
    (∀ (rs₁ rs₂ : List Reason) (v₁ v₂ : Verdict),
      estimateConfidence raw rs₁ v₁ = estimateConfidence raw rs₂ v₂) :=
  ⟨rfl, fun _ _ _ _ => rfl⟩

/-! #### C6: non-balanced sort modes -/

lemma pairwise_stableSortBy_key {α β : Type} [LinearOrder β] (k : α → β) (l : List α) :
    (stableSortBy (fun x y => decide (k x ≤ k y)) l).Pairwise fun x y => k x ≤ k y := by
  have h := pairwise_stableSortBy (fun x y => decide (k x ≤ k y))
    (fun a b c hab hbc =>
      decide_eq_true (le_trans (of_decide_eq_true hab) (of_decide_eq_true hbc)))
    (fun a b => (le_total (k a) (k b)).imp decide_eq_true decide_eq_true) l
  exact h.imp of_decide_eq_true

lemma sortScored_nonbalanced_pairwise (base : Baseline) (prefs : SuggestionPrefs)
    (mode : SortMode) (scored : List ScoredEntry) (h : mode ≠ SortMode.balanced) :
    (sortScored base prefs mode scored).Pairwise fun x y =>
      sortKey x.c base prefs mode ≤ sortKey y.c base prefs mode := by
  unfold sortScored
  rw [if_neg h]
  exact pairwise_stableSortBy_key (fun e => sortKey e.c base prefs mode) scored

/-- C6 counterexample: under sort mode `nutri`, a candidate with no
nutrition grade is placed BEFORE a candidate graded `a` (the missing grade
is ranked `indexOf = -1`), while the claim requires missing-valued
candidates to sort after all valued ones: the pipeline reorders the input
`[graded, ungraded]` into `[ungraded, graded]`. -/
theorem C6_counterexample :
    candNoGrade.nutrition_grades = none ∧ candGradeA.nutrition_grades = some Grade.a ∧
    (runSuggestions RULES baselineNoodles prefsNutri none
        (.ok [candGradeA, candNoGrade])).map (·.cand.code) =
      [candNoGrade.code, candGradeA.code] := by
  refine ⟨rfl, rfl, ?_⟩
  decide

/-- C6 amended: every non-balanced mode sorts ascending by its extracted
sort key; candidates missing the metric sort last for `sugar`/`salt` (key
`+∞`) and carry key 99 for `nova`, but for `nutri`/`eco` a missing grade is
ranked `-1` by `indexOf` and therefore sorts BEFORE every graded candidate,
not after. -/
theorem C6_amended_sort_semantics (base : Baseline) (prefs : SuggestionPrefs)
    (scored : List ScoredEntry) :
    ((sortScored base prefs .nutri scored).Pairwise fun x y =>
      sortKey x.c base prefs .nutri ≤ sortKey y.c base prefs .nutri) ∧
    ((sortScored base prefs .nova scored).Pairwise fun x y =>
      sortKey x.c base prefs .nova ≤ sortKey y.c base prefs .nova) ∧
    ((sortScored base prefs .eco scored).Pairwise fun x y =>
      sortKey x.c base prefs .eco ≤ sortKey y.c base prefs .eco) ∧
    ((sortScored base prefs .sugar scored).Pairwise fun x y =>
      sortKey x.c base prefs .sugar ≤ sortKey y.c base prefs .sugar) ∧
    ((sortScored base prefs .salt scored).Pairwise fun x y =>
      sortKey x.c base prefs .salt ≤ sortKey y.c base prefs .salt) ∧
    (∀ c : Candidate, candSugars c = none → sortKey c base prefs .sugar = ⊤) ∧
    (∀ c : Candidate, candSalt c = none → sortKey c base prefs .salt = ⊤) ∧
    (∀ c : Candidate, c.nova_group = none →
      sortKey c base prefs .nova = ((99 : ℚ) : WithTop ℚ)) ∧
    (∀ c d : Candidate, c.nutrition_grades = none → d.nutrition_grades ≠ none →
      sortKey c base prefs .nutri < sortKey d base prefs .nutri) ∧
    (∀ c d : Candidate, c.ecoscore_grade = none → d.ecoscore_grade ≠ none →
      sortKey c base prefs .eco < sortKey d base prefs .eco) := by
  refine ⟨sortScored_nonbalanced_pairwise base prefs .nutri scored (by decide),
    sortScored_nonbalanced_pairwise base prefs .nova scored (by decide),
    sortScored_nonbalanced_pairwise base prefs .eco scored (by decide),
    sortScored_nonbalanced_pairwise base prefs .sugar scored (by decide),
    sortScored_nonbalanced_pairwise base prefs .salt scored (by decide),
    ?_, ?_, ?_, ?_, ?_⟩
  · intro c h; simp [sortKey, h]
  · intro c h; simp [sortKey, h]
  · intro c h; simp [sortKey, h]
  · intro c d hc hd
    rcases Option.ne_none_iff_exists'.1 hd with ⟨g, hg⟩
    simp only [sortKey, hc, hg, gradeRank]
    have h0 : (-1 : ℚ) < (gradeIdx g : ℚ) := by
      have := Nat.cast_nonneg (α := ℚ) (gradeIdx g)
      linarith
    exact_mod_cast h0
  · intro c d hc hd
    rcases Option.ne_none_iff_exists'.1 hd with ⟨g, hg⟩
    simp only [sortKey, hc, hg, gradeRank]
    have h0 : (-1 : ℚ) < (gradeIdx g : ℚ) := by
      have := Nat.cast_nonneg (α := ℚ) (gradeIdx g)
      linarith
    exact_mod_cast h0

theorem C6_amended_witness :
    ((sortScored baselineNoodles prefsNutri .nutri []).Pairwise fun x y =>
      sortKey x.c baselineNoodles prefsNutri .nutri ≤ sortKey y.c baselineNoodles prefsNutri .nutri) ∧
    sortKey candNoGrade baselineNoodles prefsNutri .nutri <
      sortKey candGradeA baselineNoodles prefsNutri .nutri ∧
    sortKey emptyCandidate baselineNoodles prefsNutri .sugar = ⊤ :=
  ⟨(C6_amended_sort_semantics baselineNoodles prefsNutri []).1,
   (C6_amended_sort_semantics baselineNoodles prefsNutri []).2.2.2.2.2.2.2.2.1
     candNoGrade candGradeA rfl (by decide),
   (C6_amended_sort_semantics baselineNoodles prefsNutri []).2.2.2.2.2.1 emptyCandidate rfl⟩

/-! #### C7: brand diversification, order preservation, result limit -/

lemma diversifyGo_sublist (m : ℕ) (l : List Candidate) :
    ∀ counts : String → ℕ, List.Sublist (diversifyGo m counts l) l := by
  induction l with
  | nil => intro counts; simp [diversifyGo]
  | cons c rest ih =>
    intro counts
    unfold diversifyGo
    by_cases h : counts (brandKey c) < m
    · rw [if_pos h]
      exact (ih _).cons₂ c
    · rw [if_neg h]
      exact (ih _).cons c

lemma diversifyGo_countP (m : ℕ) (k : String) (l : List Candidate) :
    ∀ counts : String → ℕ,
      (diversifyGo m counts l).countP (fun c => brandKey c == k) ≤ m - counts k := by
  induction l with
  | nil => intro counts; simp [diversifyGo]
  | cons c rest ih =>
    intro counts
    unfold diversifyGo
    by_cases h : counts (brandKey c) < m
    · rw [if_pos h, List.countP_cons]
      by_cases hbk : brandKey c = k
      · have hupd := ih fun j => if j = brandKey c then counts (brandKey c) + 1 else counts j
        rw [hbk] at h hupd ⊢
        simp only [eq_self_iff_true, if_true] at hupd
        simp only [beq_self_eq_true, if_true]
        omega
      · have hupd := ih fun j => if j = brandKey c then counts (brandKey c) + 1 else counts j
        have hne : ¬(k = brandKey c) := fun hh => hbk hh.symm
        rw [if_neg hne] at hupd
        have hbeq : (brandKey c == k) = false := by
          simp only [beq_eq_false_iff_ne, ne_eq]
          exact hbk
        simp only [hbeq, Bool.false_eq_true, if_false]
        omega
    · rw [if_neg h]
      exact ih counts

/-- Either ranking bailed out with `[]`, or its output is the sorted,
scored entry list diversified by brand, truncated to the limit and mapped
into suggestions; the entries carry their candidate's score. -/
lemma rankPipeline_shape (rules : RulesShape) (baseline : Baseline) (prefs : SuggestionPrefs)
    (search : Except Unit (List Candidate)) :
    rankPipeline rules baseline prefs search = [] ∨
    ∃ entries : List ScoredEntry,
      (∀ e ∈ entries, e.score = scoreCandidate e.c baseline prefs) ∧
      rankPipeline rules baseline prefs search =
        ((diversifyByBrand
            ((sortScored baseline prefs (prefs.sort.getD .balanced) entries).map (·.c))).take
          (prefs.limit.getD 8)).map (buildSuggestion baseline prefs) := by
  unfold rankPipeline
  cases pickCategorySlug baseline.categories_tags with
  | none => exact Or.inl rfl
  | some slug =>
    cases search with
    | error e => exact Or.inl rfl
    | ok hits =>
      refine Or.inr ⟨scoredEntries rules baseline prefs _, ?_, rfl⟩
      intro e he
      simp only [scoredEntries, List.mem_map] at he
      obtain ⟨⟨c, v⟩, _, rfl⟩ := he
      rfl

/-- C7: in the returned suggestion list, at most two suggestions share any
brand key (the lowercased first comma-separated brand segment), the list is
no longer than the requested limit (default 8), and the
diversification-plus-truncation step preserves the relative order of the
sorted list it walks (kept candidates form a sublist; excess is dropped,
not reordered). -/
theorem C7_brand_cap_order_limit (rules : RulesShape) (input : Baseline)
    (prefs : SuggestionPrefs) (backfill : Option Baseline)
    (search : Except Unit (List Candidate)) :
    (∀ k : String,
      (runSuggestions rules input prefs backfill search).countP
        (fun s => brandKey s.cand == k) ≤ 2) ∧
    (runSuggestions rules input prefs backfill search).length ≤ prefs.limit.getD 8 ∧
    (∀ (l : List Candidate) (n : ℕ), List.Sublist ((diversifyByBrand l).take n) l) := by
  have hrs : runSuggestions rules input prefs backfill search =
      rankPipeline rules (resolveBaseline input backfill) prefs search := rfl
  rcases rankPipeline_shape rules (resolveBaseline input backfill) prefs search with
    hout | ⟨entries, _, hout⟩
  · rw [hrs, hout]
    refine ⟨fun k => by simp, by simp, fun l n => ?_⟩
    exact (List.take_sublist _ _).trans (diversifyGo_sublist 2 l _)
  · rw [hrs, hout]
    refine ⟨fun k => ?_, ?_, fun l n => (List.take_sublist _ _).trans (diversifyGo_sublist 2 l _)⟩
    · rw [List.countP_map]
      have h1 : (((diversifyByBrand
            ((sortScored (resolveBaseline input backfill) prefs (prefs.sort.getD .balanced)
              entries).map (·.c))).take (prefs.limit.getD 8)).countP
            (fun c => brandKey c == k)) ≤
          ((diversifyByBrand
            ((sortScored (resolveBaseline input backfill) prefs (prefs.sort.getD .balanced)
              entries).map (·.c))).countP (fun c => brandKey c == k)) :=
        (List.take_sublist _ _).countP_le _
      have h2 := diversifyGo_countP 2 k
        ((sortScored (resolveBaseline input backfill) prefs (prefs.sort.getD .balanced)
          entries).map (·.c)) (fun _ => 0)
      unfold diversifyByBrand at h1
      calc ((((diversifyGo 2 (fun _ => 0)
            ((sortScored (resolveBaseline input backfill) prefs (prefs.sort.getD .balanced)
              entries).map (·.c))).take (prefs.limit.getD 8)).countP
            ((fun s => brandKey s.cand == k) ∘
              buildSuggestion (resolveBaseline input backfill) prefs))) =
          (((diversifyGo 2 (fun _ => 0)
            ((sortScored (resolveBaseline input backfill) prefs (prefs.sort.getD .balanced)
              entries).map (·.c))).take (prefs.limit.getD 8)).countP
            (fun c => brandKey c == k)) := rfl
        _ ≤ _ := h1
        _ ≤ 2 - 0 := h2
        _ = 2 := rfl
    · rw [List.length_map]
      exact List.length_take_le _ _

/-! #### C8: error containment of the ranking engine -/

/-- A baseline whose only category tag is generic, so no usable slug can be
selected. -/
def baselineGeneric : Baseline :=
  { emptyBaseline with code := "g", categories_tags := some ["en:foods"] }

/-- C8: ranking never surfaces a failure to its caller — a failed catalog
search yields `[]`, a baseline without a usable category slug yields `[]`,
and a failed (or `null`) baseline backfill lookup is non-fatal: ranking
proceeds on the baseline data supplied by the caller. -/
theorem C8_error_containment (rules : RulesShape) (input : Baseline) (prefs : SuggestionPrefs) :
    (∀ backfill : Option Baseline,
      runSuggestions rules input prefs backfill (.error ()) = []) ∧
    (∀ (backfill : Option Baseline) (search : Except Unit (List Candidate)),
      pickCategorySlug (resolveBaseline input backfill).categories_tags = none →
        runSuggestions rules input prefs backfill search = []) ∧
    (∀ search : Except Unit (List Candidate),
      runSuggestions rules input prefs none search = rankPipeline rules input prefs search) := by
  refine ⟨?_, ?_, ?_⟩
  · intro backfill
    have hrs : runSuggestions rules input prefs backfill (.error ()) =
        rankPipeline rules (resolveBaseline input backfill) prefs (.error ()) := rfl
    rw [hrs]
    unfold rankPipeline
    cases pickCategorySlug (resolveBaseline input backfill).categories_tags <;> rfl
  · intro backfill search h
    have hrs : runSuggestions rules input prefs backfill search =
        rankPipeline rules (resolveBaseline input backfill) prefs search := rfl
    rw [hrs]
    unfold rankPipeline
    rw [h]
  · intro search
    have hr : resolveBaseline input none = input := by
      unfold resolveBaseline
      split <;> rfl
    show rankPipeline rules (resolveBaseline input none) prefs search = _
    rw [hr]

theorem C8_witness :
    pickCategorySlug (resolveBaseline baselineGeneric none).categories_tags = none ∧
    runSuggestions RULES baselineGeneric prefsVegan none (.ok [candGradeA]) = [] ∧
    runSuggestions RULES baselineNoodles prefsVegan none (.error ()) = [] :=
  ⟨by decide,
   (C8_error_containment RULES baselineGeneric prefsVegan).2.1 none (.ok [candGradeA]) (by decide),
   (C8_error_containment RULES baselineNoodles prefsVegan).1 none⟩

/-! #### C9: scope of the backfill lookup -/

/-- C9 counterexample: the caller supplies a baseline with NO nutrition
grade, the backfill record carries grade `e`, and the returned suggestion's
nutrition delta reads `from = e` — the fetched record reached the delta
(and score) computation, not only the category/country tags.  Against the
supplied baseline alone the delta would have been `from = none`. -/
theorem C9_counterexample :
    baselineBare.nutrition_grades = none ∧
    (runSuggestions RULES baselineBare prefsVegan (some fetchedRecord)
        (.ok [candGradeA])).map (·.deltas.nutri) = [some (some Grade.e, some Grade.a)] ∧
    (computeDeltas candGradeA baselineBare).nutri = some (none, some Grade.a) := by
  refine ⟨rfl, ?_, by decide⟩
  decide

/-- C9 amended: the backfill lookup is consulted only when the supplied
baseline has no category tags, and the merge `{ ...fetched, ...baseline }`
then fills EVERY field missing from the supplied baseline from the fetched
record — not only the category/country tags — while every field the
supplied baseline does carry (and its code) is preserved. -/
theorem C9_amended_backfill_merge :
    (∀ (rules : RulesShape) (input : Baseline) (prefs : SuggestionPrefs)
        (backfill : Option Baseline) (search : Except Unit (List Candidate)),
      input.categories_tags.getD [] ≠ [] →
        runSuggestions rules input prefs backfill search =
          rankPipeline rules input prefs search) ∧
    (∀ fetched b : Baseline, (mergeBackfill fetched b).code = b.code) ∧
    (∀ fetched b : Baseline,
      (b.nutrition_grades.isSome = true →
        (mergeBackfill fetched b).nutrition_grades = b.nutrition_grades) ∧
      (b.nova_group.isSome = true → (mergeBackfill fetched b).nova_group = b.nova_group) ∧
      (b.ecoscore_grade.isSome = true →
        (mergeBackfill fetched b).ecoscore_grade = b.ecoscore_grade) ∧
      (b.nutriments.isSome = true → (mergeBackfill fetched b).nutriments = b.nutriments) ∧
      (b.additives_n.isSome = true → (mergeBackfill fetched b).additives_n = b.additives_n) ∧
      (b.additives_tags.isSome = true →
        (mergeBackfill fetched b).additives_tags = b.additives_tags) ∧
      (b.ingredients_from_palm_oil_n.isSome = true →
        (mergeBackfill fetched b).ingredients_from_palm_oil_n =
          b.ingredients_from_palm_oil_n)) ∧
    (∀ fetched b : Baseline,
      (b.nutrition_grades = none →
        (mergeBackfill fetched b).nutrition_grades = fetched.nutrition_grades) ∧
      (b.nova_group = none → (mergeBackfill fetched b).nova_group = fetched.nova_group) ∧
      (b.nutriments = none → (mergeBackfill fetched b).nutriments = fetched.nutriments)) := by
  refine ⟨?_, ?_, ?_, ?_⟩
  · intro rules input prefs backfill search h
    have hrs : runSuggestions rules input prefs backfill search =
        rankPipeline rules (resolveBaseline input backfill) prefs search := rfl
    have hrb : resolveBaseline input backfill = input := by
      unfold resolveBaseline
      rw [if_neg h]
    rw [hrs, hrb]
  · intro fetched b; rfl
  · intro fetched b
    refine ⟨?_, ?_, ?_, ?_, ?_, ?_, ?_⟩ <;>
      (intro h; rcases Option.isSome_iff_exists.1 h with ⟨v, hv⟩; simp [mergeBackfill, hv])
  · intro fetched b
    refine ⟨?_, ?_, ?_⟩ <;> (intro h; simp [mergeBackfill, h])

theorem C9_amended_witness :
    runSuggestions RULES baselineNoodles prefsVegan (some fetchedRecord) (.ok [candGradeA]) =
      rankPipeline RULES baselineNoodles prefsVegan (.ok [candGradeA]) ∧
    (mergeBackfill emptyBaseline fetchedRecord).nutrition_grades = some Grade.e ∧
    (mergeBackfill fetchedRecord baselineBare).nutrition_grades = some Grade.e :=
  ⟨C9_amended_backfill_merge.1 RULES baselineNoodles prefsVegan (some fetchedRecord)
      (.ok [candGradeA]) (by decide),
   ((C9_amended_backfill_merge.2.2.1 emptyBaseline fetchedRecord).1 (by decide)).trans rfl,
   ((C9_amended_backfill_merge.2.2.2 fetchedRecord baselineBare).1 rfl).trans rfl⟩

/-! #### C10: balanced-mode score monotonicity -/

lemma sortScored_balanced_pairwise (base : Baseline) (prefs : SuggestionPrefs)
    (scored : List ScoredEntry) :
    (sortScored base prefs .balanced scored).Pairwise fun x y => y.score ≤ x.score := by
  unfold sortScored
  rw [if_pos rfl]
  have h := pairwise_stableSortBy (fun x y => decide (y.score ≤ x.score))
    (fun a b c hab hbc =>
      decide_eq_true (le_trans (of_decide_eq_true hbc) (of_decide_eq_true hab)))
    (fun a b => (le_total b.score a.score).imp decide_eq_true decide_eq_true) scored
  exact h.imp of_decide_eq_true

lemma mem_sortScored {base : Baseline} {prefs : SuggestionPrefs} {mode : SortMode}
    {scored : List ScoredEntry} {e : ScoredEntry}
    (h : e ∈ sortScored base prefs mode scored) : e ∈ scored := by
  unfold sortScored at h
  split at h
  · exact (stableSortBy_perm _ _).mem_iff.1 h
  · exact (stableSortBy_perm _ _).mem_iff.1 h

/-- C10: when the sort mode is `balanced` or unspecified, the score fields
along the returned suggestion list are non-increasing (descending sort,
order-preserving diversification and truncation), and each returned score
is the value of the pure `scoreCandidate` on that suggestion's candidate,
the (resolved) baseline and the preferences. -/
theorem C10_balanced_scores_monotone (rules : RulesShape) (input : Baseline)
    (prefs : SuggestionPrefs) (backfill : Option Baseline)
    (search : Except Unit (List Candidate))
    (h : prefs.sort = none ∨ prefs.sort = some .balanced) :
    (((runSuggestions rules input prefs backfill search).map (·.score)).Pairwise
      fun a b => b ≤ a) ∧
    (∀ s ∈ runSuggestions rules input prefs backfill search,
      s.score = scoreCandidate s.cand (resolveBaseline input backfill) prefs) := by
  have hmode : prefs.sort.getD .balanced = .balanced := by
    rcases h with h | h <;> simp [h]
  have hrs : runSuggestions rules input prefs backfill search =
      rankPipeline rules (resolveBaseline input backfill) prefs search := rfl
  rcases rankPipeline_shape rules (resolveBaseline input backfill) prefs search with
    hout | ⟨entries, hscore, hout⟩
  · rw [hrs, hout]
    exact ⟨by simp, by simp⟩
  · rw [hmode] at hout
    rw [hrs, hout]
    have hpw := sortScored_balanced_pairwise (resolveBaseline input backfill) prefs entries
    have hpw' : (sortScored (resolveBaseline input backfill) prefs .balanced entries).Pairwise
        fun x y => scoreCandidate y.c (resolveBaseline input backfill) prefs ≤
          scoreCandidate x.c (resolveBaseline input backfill) prefs := by
      refine hpw.imp_of_mem ?_
      intro a b ha hb hab
      rw [← hscore a (mem_sortScored ha), ← hscore b (mem_sortScored hb)]
      exact hab
    have hmap : ((sortScored (resolveBaseline input backfill) prefs .balanced entries).map
        (·.c)).Pairwise fun c d => scoreCandidate d (resolveBaseline input backfill) prefs ≤
          scoreCandidate c (resolveBaseline input backfill) prefs :=
      (List.pairwise_map).2 hpw'
    have hsub : List.Sublist
        ((diversifyByBrand
          ((sortScored (resolveBaseline input backfill) prefs .balanced entries).map
            (·.c))).take (prefs.limit.getD 8))
        ((sortScored (resolveBaseline input backfill) prefs .balanced entries).map (·.c)) :=
      (List.take_sublist _ _).trans (diversifyGo_sublist 2 _ _)
    have hlim := hmap.sublist hsub
    constructor
    · rw [List.map_map]
      exact (List.pairwise_map).2 hlim
    · intro s hs
      simp only [List.mem_map] at hs
      obtain ⟨c, _, rfl⟩ := hs
      rfl

theorem C10_witness :
    (((runSuggestions RULES baselineNoodles prefsVegan none
        (.ok [candGradeA])).map (·.score)).Pairwise fun a b => b ≤ a) ∧
    (buildSuggestion baselineNoodles prefsVegan candGradeA).score =
      scoreCandidate candGradeA (resolveBaseline baselineNoodles none) prefsVegan :=
  ⟨(C10_balanced_scores_monotone RULES baselineNoodles prefsVegan none
      (.ok [candGradeA]) (Or.inl rfl)).1,
   (C10_balanced_scores_monotone RULES baselineNoodles prefsVegan none
      (.ok [candGradeA]) (Or.inl rfl)).2
     (buildSuggestion baselineNoodles prefsVegan candGradeA) (List.Mem.head _)⟩

end Greendot
